import Mathlib

/-!
Shallow embedding of the OpenBrickProtocolFoundation client
(`src/main.py`, `src/line_clear_delay_state.py`, `src/synchronized.py`,
`src/tetrion.py`) and proofs about its synchronization, wire-encoding and
error-handling behaviour.

Bytes are modelled as natural numbers (each `< 256` where produced by the
encoders); fallible Python operations (`struct.pack`/`struct.unpack` range and
length errors, failed `assert` statements, enum-constructor `ValueError`s and
explicit `raise`s) are modelled with `Option`, `none` meaning the exception.
-/

set_option maxRecDepth 100000

namespace ObpfClient

/-! ## Big-endian byte strings (`struct.pack`/`struct.unpack` with `!`) -/

/-- Value of a big-endian byte string (how `struct.unpack("!...")` combines
bytes into an unsigned integer). -/
def beVal (bs : List Nat) : Nat :=
  bs.foldl (fun acc b => 256 * acc + b) 0

/-- The `w`-byte big-endian representation of `n` (used by
`struct.pack("!...")`; faithful only for `n < 256 ^ w`, which the `pack?`
wrappers below check, mirroring `struct.error`). -/
def toBytesBE : Nat → Nat → List Nat
  | 0, _ => []
  | w + 1, n => toBytesBE w (n / 256) ++ [n % 256]

/-- Packing (`struct.pack`) of one unsigned field of width `w` bytes: Python raises
`struct.error` when the value is out of range. -/
def packUInt? (w n : Nat) : Option (List Nat) :=
  if n < 256 ^ w then some (toBytesBE w n) else none

/-! ## Input events (`src/tetrion.py`) -/

/-- The `Key` enum from `src/tetrion.py`. -/
inductive Key where
  | LEFT | RIGHT | DOWN | DROP | ROTATE_CW | ROTATE_CCW | HOLD
  deriving DecidableEq, Repr

/-- The `.value` of a `Key` (its stable wire integer). -/
def Key.value : Key → Nat
  | .LEFT => 0
  | .RIGHT => 1
  | .DOWN => 2
  | .DROP => 3
  | .ROTATE_CW => 4
  | .ROTATE_CCW => 5
  | .HOLD => 6

/-- Constructor call `Key(n)`: raises `ValueError` (here `none`) for an
integer that is no `Key` value. -/
def Key.fromNat? : Nat → Option Key
  | 0 => some .LEFT
  | 1 => some .RIGHT
  | 2 => some .DOWN
  | 3 => some .DROP
  | 4 => some .ROTATE_CW
  | 5 => some .ROTATE_CCW
  | 6 => some .HOLD
  | _ => none

/-- The `EventType` enum from `src/tetrion.py`. -/
inductive EventType where
  | PRESSED | RELEASED
  deriving DecidableEq, Repr

/-- The `.value` of an `EventType`. -/
def EventType.value : EventType → Nat
  | .PRESSED => 0
  | .RELEASED => 1

/-- Constructor call `EventType(n)`, `ValueError` as `none`. -/
def EventType.fromNat? : Nat → Option EventType
  | 0 => some .PRESSED
  | 1 => some .RELEASED
  | _ => none

/-- The `Event` named tuple from `src/tetrion.py`. -/
structure Event where
  key : Key
  type : EventType
  frame : Nat
  deriving DecidableEq, Repr

/-! ## Outbound encoder: `send_event_buffer` (`src/main.py` lines 63-69) -/

/-- The ten wire bytes of one event as appended by
`struct.pack("!BBQ", event.key.value, event.type.value, event.frame)`. -/
def eventBytes (e : Event) : List Nat :=
  [e.key.value, e.type.value] ++ toBytesBE 8 e.frame

/-- One iteration of the `for event in events` loop of `send_event_buffer`:
`data += struct.pack("!BBQ", ...)`, with `struct.error` as `none`. -/
def packEvent? (e : Event) : Option (List Nat) := do
  let kb ← packUInt? 1 e.key.value
  let tb ← packUInt? 1 e.type.value
  let fb ← packUInt? 8 e.frame
  some (kb ++ tb ++ fb)

/-- The `for` loop of `send_event_buffer`, accumulating `data`. -/
def packEvents? : List Event → Option (List Nat)
  | [] => some []
  | e :: es => do
      let hd ← packEvent? e
      let tl ← packEvents? es
      some (hd ++ tl)

/-- Function `send_event_buffer` (`src/main.py` lines 63-69): builds the bytes passed
to `target.send`.  `payload_size = 9 + 10 * len(events)`; the header and the
leading payload fields come from
`struct.pack("!BHQB", 0, payload_size, frame, len(events))`. -/
def send_event_buffer (events : List Event) (frame : Nat) : Option (List Nat) := do
  let payload_size := 9 + 10 * events.length
  let tagB ← packUInt? 1 0
  let sizeB ← packUInt? 2 payload_size
  let frameB ← packUInt? 8 frame
  let countB ← packUInt? 1 events.length
  let evB ← packEvents? events
  some (tagB ++ sizeB ++ frameB ++ countB ++ evB)

/-! ## Line clear delay state (`src/line_clear_delay_state.py`) -/

/-- The `ObpfLineClearDelayState` ctypes structure (fields `count`, `first`,
`second`, `third`, `fourth` are `u8`; `countdown`, `delay` are `u64`). -/
structure ObpfLineClearDelayState where
  count : Nat
  first : Nat
  second : Nat
  third : Nat
  fourth : Nat
  countdown : Nat
  delay : Nat
  deriving DecidableEq, Repr

/-- The `LineClearDelayState` named tuple. -/
structure LineClearDelayState where
  lines : List Nat
  countdown : Nat
  delay : Nat
  deriving DecidableEq, Repr

/-- Method `LineClearDelayState.from_obpf` (`src/line_clear_delay_state.py`
lines 23-34): appends `first`..`fourth` while guarded by `count`. -/
def LineClearDelayState.from_obpf (obpf : ObpfLineClearDelayState) :
    LineClearDelayState :=
  let lines : List Nat :=
    (if obpf.count > 0 then [obpf.first] else []) ++
    (if obpf.count > 1 then [obpf.second] else []) ++
    (if obpf.count > 2 then [obpf.third] else []) ++
    (if obpf.count > 3 then [obpf.fourth] else [])
  ⟨lines, obpf.countdown, obpf.delay⟩

/-! ## Inbound messages and the network receiver
(`src/main.py` lines 193-280) -/

/-- The `MessageType` enum (`src/main.py` lines 193-197). -/
inductive MessageType where
  | HEARTBEAT | GRID_STATE | GAME_START | EVENT_BROADCAST
  deriving DecidableEq, Repr

/-- Constructor call `MessageType(n)`, `ValueError` as `none`. -/
def MessageType.fromNat? : Nat → Option MessageType
  | 0 => some .HEARTBEAT
  | 1 => some .GRID_STATE
  | 2 => some .GAME_START
  | 3 => some .EVENT_BROADCAST
  | _ => none

/-- The `MessageHeader` named tuple (`src/main.py` lines 200-202). -/
structure MessageHeader where
  type_ : MessageType
  payload_size : Nat
  deriving DecidableEq, Repr

/-- The `ClientEvents` named tuple (`src/main.py` lines 205-207). -/
structure ClientEvents where
  client_id : Nat
  events : List Event
  deriving DecidableEq, Repr

/-- The union `BroadcastMessage | GameStartMessage` held by `message_queue`
(`src/main.py` lines 210-221). -/
inductive PendingMessage where
  | gameStart (client_id start_frame random_seed : Nat)
  | broadcast (frame : Nat) (events_per_client : List ClientEvents)
  deriving DecidableEq, Repr

/-- Slicing `buffer[:n], buffer[n:]` paired with the implicit length requirement of
the subsequent `struct.unpack` (which raises when fewer than `n` bytes are
available). -/
def takeExact? (n : Nat) (bs : List Nat) : Option (List Nat × List Nat) :=
  if n ≤ bs.length then some (bs.take n, bs.drop n) else none

/-- The inner `for _ in range(event_count)` loop of the `EVENT_BROADCAST`
branch (`src/main.py` lines 269-272): unpack `"!BBQ"` ten-byte groups into
`Event`s, consuming the buffer. -/
def parseEvents? : Nat → List Nat → Option (List Event × List Nat)
  | 0, bs => some ([], bs)
  | n + 1, bs => do
      let (grp, rest) ← takeExact? 10 bs
      match grp with
      | k :: t :: fbytes => do
          let key ← Key.fromNat? k
          let ty ← EventType.fromNat? t
          let (evs, rest2) ← parseEvents? n rest
          some (⟨key, ty, beVal fbytes⟩ :: evs, rest2)
      | _ => none

/-- The `for _ in range(num_clients)` loop of the `EVENT_BROADCAST` branch
(`src/main.py` lines 265-273): unpack `"!BB"` then the client's events. -/
def parseClients? : Nat → List Nat → Option (List ClientEvents × List Nat)
  | 0, bs => some ([], bs)
  | n + 1, bs => do
      let (pair, rest) ← takeExact? 2 bs
      match pair with
      | [cid, event_count] => do
          let (evs, rest2) ← parseEvents? event_count rest
          let (rest3, rest4) ← parseClients? n rest2
          some (⟨cid, evs⟩ :: rest3, rest4)
      | _ => none

/-- Receiver-loop state of `keep_receiving` (`src/main.py` lines 224-280):
the reassembly `buffer`, `current_header`, and the shared `message_queue`
it appends to. -/
structure RecvState where
  buffer : List Nat
  current_header : Option MessageHeader
  queue : List PendingMessage
  deriving DecidableEq, Repr

/-- Initial receiver state: empty `buffer`, `current_header = None`, empty
`message_queue`. -/
def initRecvState : RecvState := ⟨[], none, []⟩

/-- The first `if` of the receiver body (`src/main.py` lines 249-252):
`if current_header is None and len(buffer) >= 3`, unpack `"!BH"` and
construct the `MessageType` (whose `ValueError` on an unknown tag is
`none`). -/
def parseHeaderStage (hdr : Option MessageHeader) (buffer0 : List Nat) :
    Option (List Nat × Option MessageHeader) :=
  match hdr with
  | none =>
      match buffer0 with
      | t :: h1 :: h2 :: rest =>
          match MessageType.fromNat? t with
          | some mt => some (rest, some ⟨mt, 256 * h1 + h2⟩)
          | none => none
      | _ => some (buffer0, none)
  | some hd => some (buffer0, some hd)

/-- The second `if` of the receiver body (`src/main.py` lines 253-278):
`if current_header is not None and len(buffer) >= current_header.payload_size`,
dispatch on the message type and append at most one decoded message to the
queue; `case _` raises (`none`). -/
def dispatchStage (queue : List PendingMessage) (buffer1 : List Nat)
    (header1 : Option MessageHeader) : Option RecvState :=
  match header1 with
  | none => some ⟨buffer1, none, queue⟩
  | some hd =>
      if hd.payload_size ≤ buffer1.length then
        match hd.type_ with
        | .GAME_START =>
            match takeExact? 1 buffer1 with
            | none => none
            | some (idB, rest) =>
                match takeExact? 8 rest with
                | none => none
                | some (sfB, rest2) =>
                    match takeExact? 8 rest2 with
                    | none => none
                    | some (rsB, rest3) =>
                        some ⟨rest3, none,
                          queue ++
                            [.gameStart (beVal idB) (beVal sfB) (beVal rsB)]⟩
        | .EVENT_BROADCAST =>
            match takeExact? 8 buffer1 with
            | none => none
            | some (frB, rest) =>
                match takeExact? 1 rest with
                | none => none
                | some (ncB, rest2) =>
                    match parseClients? (beVal ncB) rest2 with
                    | none => none
                    | some (events_per_client, rest3) =>
                        some ⟨rest3, none,
                          queue ++
                            [.broadcast (beVal frB) events_per_client]⟩
        | _ => none -- `raise Exception(f"invalid message type: ...")`
      else
        some ⟨buffer1, some hd, queue⟩

/-- The buffer-processing tail of one `keep_receiving` iteration after a
successful `recv` (`src/main.py` lines 248-278): extend the buffer, then the
two `if` statements — parse a header once three bytes are present, then
dispatch one payload once `payload_size` bytes are present.  `none` models an
uncaught exception (invalid `MessageType`, invalid `Key`/`EventType`, a short
`struct.unpack` slice, or the explicit `raise` on `HEARTBEAT`/`GRID_STATE`
tags), which kills the receiver thread. -/
def processData (st : RecvState) (data : List Nat) : Option RecvState :=
  match parseHeaderStage st.current_header (st.buffer ++ data) with
  | none => none
  | some (buffer1, header1) => dispatchStage st.queue buffer1 header1

/-- What `select`/`recv` yields to one iteration of the receiver loop. -/
inductive SocketEvent where
  | timeout            -- `select` returned nothing ready
  | blockingErr        -- `recv` raised `BlockingIOError`
  | connAborted        -- `recv` raised `ConnectionAbortedError`
  | connReset          -- `recv` raised `ConnectionResetError`
  | recv (data : List Nat)
  deriving DecidableEq, Repr

/-- Receiver-side session state: the shared `running` flag
(`src/synchronized.py`), whether the `keep_receiving` loop/thread is still
alive, and the receiver state proper. -/
structure SessionState where
  running : Bool
  recvAlive : Bool
  recv : RecvState
  deriving DecidableEq, Repr

/-- One iteration of the `while True` loop of `keep_receiving`
(`src/main.py` lines 228-278).  The loop `break`s when the shared flag is
false or on `ConnectionAbortedError`/`ConnectionResetError` (lines 239-246) —
in both cases *without writing* the `running` flag, which `keep_receiving`
only ever reads; an uncaught decode exception (line 277 or an enum
`ValueError`) likewise ends the thread with `running` untouched. -/
def sessionRecvStep (s : SessionState) (ev : SocketEvent) : SessionState :=
  if !s.recvAlive then s
  else if !s.running then { s with recvAlive := false }  -- `break` at line 231
  else
    match ev with
    | .timeout => s
    | .blockingErr => s
    | .connAborted => { s with recvAlive := false }      -- `break` at line 242
    | .connReset => { s with recvAlive := false }        -- `break` at line 246
    | .recv data =>
        match processData s.recv data with
        | some st => { s with recv := st }
        | none => { s with recvAlive := false }          -- uncaught exception

/-! ## The main loop (`src/main.py` lines 329-487)

We model the iterations of the `while True` loop at lines 367-479 that run
while the session continues.  Rendering (pure output) is omitted; the two
`Tetrion` simulation handles are opaque native objects, so we log the targets
passed to their `simulate_up_until` methods and the events passed to
`enqueue_event`, plus the derived current frame of the remote handle (see
`advanceRemote`).  Quit events merely set the `running` flag, ending the
modelled iteration sequence; they do not affect the state observed by any
claim. -/

/-- The `Mode` enum (`src/main.py` lines 31-33). -/
inductive Mode where
  | ONE_PLAYER | TWO_PLAYERS
  deriving DecidableEq, Repr

/-- The constant `MODE = Mode.ONE_PLAYER` (`src/main.py` line 36). -/
def MODE : Mode := Mode.ONE_PLAYER

/-- State carried across iterations of the main loop (`src/main.py`
lines 349-365 initialise it). -/
structure MainState where
  client_id : Nat
  simulation_step : Nat
  event_buffer : List Event
  other_client_frame : Option Nat
  /-- log of events passed to `tetrion.enqueue_event`. -/
  localEnqueued : List Event
  /-- log of targets passed to `tetrion.simulate_up_until` (line 442). -/
  localTargets : List Nat
  /-- log of events passed to `other_tetrion.enqueue_event` (line 451). -/
  remoteEnqueued : List Event
  /-- log of targets passed to `other_tetrion.simulate_up_until` (line 454). -/
  remoteTargets : List Nat
  /-- Modelled from the spec: the current frame of the remote simulation
  handle.  `obpf_tetrion_simulate_up_until` lives in the external simulator
  library, not in this repository; §4.2 of the spec states that `advance` is
  an idempotent no-op when the target is at most the current frame and
  otherwise steps the handle exactly to the target, so the current frame is
  the running maximum of the targets, starting from 0 for a fresh handle. -/
  remoteFrame : Nat
  /-- log of `(simulation_step, event_buffer)` at each `send_event_buffer`
  call (line 477). -/
  sends : List (Nat × List Event)
  deriving DecidableEq, Repr

/-- Main-loop state right after the `with Tetrion(seed) ...` setup
(`src/main.py` lines 349-365): `simulation_step = 0`, empty buffers,
`other_client_frame = None`.  The `client_id` comes from the initial
`GameStartMessage` (line 349). -/
def initMainState (client_id : Nat) : MainState :=
  ⟨client_id, 0, [], none, [], [], [], [], 0, []⟩

/-- External data consumed by one iteration of the main loop: the mapped key
transitions pygame reported this tick, the messages the receiver thread has
put on `message_queue`, and the frame the wall clock yields at line 473
(`int(elapsed / (1.0 / 60.0))`). -/
structure TickInput where
  keys : List (Key × EventType)
  msgs : List PendingMessage
  new_frame : Nat
  deriving DecidableEq, Repr

/-- The pygame `KEYDOWN`/`KEYUP` handling (`src/main.py` lines 375-439): each
mapped transition becomes an `Event` tagged with the *current*
`simulation_step`, is enqueued into the local handle, and is appended to
`event_buffer`. -/
def handleInputs (st : MainState) (keys : List (Key × EventType)) : MainState :=
  keys.foldl
    (fun st kt =>
      let ev : Event := ⟨kt.1, kt.2, st.simulation_step⟩
      { st with
        localEnqueued := st.localEnqueued ++ [ev]
        event_buffer := st.event_buffer ++ [ev] })
    st

/-- The drain loop `while len(message_queue) > 0` (`src/main.py` lines 444-451):
each popped message must be a `BroadcastMessage` (line 446 `assert
isinstance`) with at least one client's events (line 447 `assert`);
`other_client_frame` is set to its frame; under `Mode.TWO_PLAYERS` the other
client's events are enqueued into the remote handle.  `none` models a failed
assertion (or an `IndexError` picking the other client's entry), aborting the
session. -/
def drainMsgs (st : MainState) : List PendingMessage → Option MainState
  | [] => some st
  | .gameStart _ _ _ :: _ => none
  | .broadcast frame events_per_client :: rest =>
      if 1 ≤ events_per_client.length then
        let st1 := { st with other_client_frame := some frame }
        if MODE = Mode.TWO_PLAYERS then
          match events_per_client.get? (if st.client_id = 0 then 1 else 0) with
          | some ce =>
              drainMsgs
                { st1 with remoteEnqueued := st1.remoteEnqueued ++ ce.events }
                rest
          | none => none
        else
          drainMsgs st1 rest
      else none

/-- Call `other_tetrion.simulate_up_until(target)` (`src/main.py` line 454): log
the target and update the modelled remote current frame (see
`MainState.remoteFrame`). -/
def advanceRemote (st : MainState) (target : Nat) : MainState :=
  { st with
    remoteTargets := st.remoteTargets ++ [target]
    remoteFrame := max st.remoteFrame target }

/-- One iteration of the catch-up `while` loop (`src/main.py`
lines 475-479): flush `event_buffer` through `send_event_buffer` when
`simulation_step % 15 == 0`, clear it, then increment `simulation_step`. -/
def catchUpStep (st : MainState) : MainState :=
  let st :=
    if st.simulation_step % 15 = 0 then
      { st with
        sends := st.sends ++ [(st.simulation_step, st.event_buffer)]
        event_buffer := [] }
    else st
  { st with simulation_step := st.simulation_step + 1 }

/-- Runs `n` further iterations of the catch-up loop. -/
def catchUpGo : Nat → MainState → MainState
  | 0, st => st
  | n + 1, st => catchUpGo n (catchUpStep st)

/-- The loop `while simulation_step < new_frame - 1` (`src/main.py`
lines 475-479).  Each iteration increments `simulation_step` by exactly one,
so the loop runs exactly `(new_frame - 1) - simulation_step` times (natural
subtraction: zero iterations when the clock has not moved past
`simulation_step + 1`, matching the Python integer comparison). -/
def catchUp (st : MainState) (new_frame : Nat) : MainState :=
  catchUpGo ((new_frame - 1) - st.simulation_step) st

/-- Lines 441-442 of `src/main.py`:
`if simulation_step > 0: tetrion.simulate_up_until(simulation_step - 1)`. -/
def localAdvance (st : MainState) : MainState :=
  if st.simulation_step > 0 then
    { st with localTargets := st.localTargets ++ [st.simulation_step - 1] }
  else st

/-- Lines 453-454 of `src/main.py`:
`if simulation_step > 30 and other_client_frame is not None:
other_tetrion.simulate_up_until(min(simulation_step - 30, other_client_frame))`. -/
def remoteAdvance (st : MainState) : MainState :=
  if st.simulation_step > 30 then
    match st.other_client_frame with
    | some ocf => advanceRemote st (min (st.simulation_step - 30) ocf)
    | none => st
  else st

/-- One full iteration of the main `while True` loop (`src/main.py`
lines 367-479), for a tick on which the session continues:
pygame input handling (lines 375-439), the local-handle advance (lines
441-442), the message-queue drain (lines 444-451), the guarded remote-handle
advance (lines 453-454), and the frame-clock catch-up (lines 472-479).
`none` models an assertion failure aborting the session. -/
def loopTick (st : MainState) (inp : TickInput) : Option MainState :=
  (drainMsgs (localAdvance (handleInputs st inp.keys)) inp.msgs).map
    (fun st => catchUp (remoteAdvance st) inp.new_frame)

/-- A sequence of main-loop iterations. -/
def runTicks (st : MainState) : List TickInput → Option MainState
  | [] => some st
  | inp :: rest => do
      let st ← loopTick st inp
      runTicks st rest

/-! ## Derived notions used to state the claims -/

/-- Frames carried by the `BroadcastMessage`s of a message list. -/
def msgFrames : List PendingMessage → List Nat
  | [] => []
  | .gameStart _ _ _ :: rest => msgFrames rest
  | .broadcast f _ :: rest => f :: msgFrames rest

/-- Frames of all broadcasts a run of the main loop consumes, in
consumption order. -/
def broadcastFrames : List TickInput → List Nat
  | [] => []
  | inp :: rest => msgFrames inp.msgs ++ broadcastFrames rest

/-- Maximum of a list of naturals (zero for the empty list): the current
frame of a simulation handle that was driven by that list of
`simulate_up_until` targets. -/
def listMax : List Nat → Nat
  | [] => 0
  | x :: xs => max x (listMax xs)

/-- Closed form of the catch-up loop's flush behaviour: the
`(simulation_step, event_buffer)` pairs passed to `send_event_buffer` when
the step counter runs from `s` for `n` increments starting with buffer
contents `buf` (the buffer is cleared at the first flush). -/
def flushes : Nat → Nat → List Event → List (Nat × List Event)
  | _, 0, _ => []
  | s, n + 1, buf =>
      if s % 15 = 0 then (s, buf) :: flushes (s + 1) n []
      else flushes (s + 1) n buf

/-- Wire bytes of one complete `GameStart` message (tag 2, payload size 17,
then `client_id:u8, start_frame:u64, random_seed:u64`), as the game server
frames it. -/
def gameStartBytes (client_id start_frame random_seed : Nat) : List Nat :=
  [2, 0, 17] ++ [client_id] ++ toBytesBE 8 start_frame ++ toBytesBE 8 random_seed

/-- Synchronization invariant of the main loop: the remote-handle advance
targets are non-decreasing, each is bounded by
`min(simulation_step - 30, other_client_frame)`, and the remote handle's
current frame is the maximum target so far. -/
def MainInv (st : MainState) : Prop :=
  List.Sorted (· ≤ ·) st.remoteTargets ∧
  (∀ t ∈ st.remoteTargets,
    ∃ f, st.other_client_frame = some f ∧
      t ≤ min (st.simulation_step - 30) f) ∧
  st.remoteFrame = listMax st.remoteTargets

/-- The last known remote frame is at most every frame in `fs` (the frames
of broadcasts still to be consumed). -/
def OcfLe (st : MainState) (fs : List Nat) : Prop :=
  ∀ f, st.other_client_frame = some f → ∀ g ∈ fs, f ≤ g

/-! ## Concrete runs used by witnesses and counterexamples -/

/-- Spec scenario, first phase: the local clock reaches frame 101, so
`simulation_step` reaches 100, with no broadcast received. -/
def scenNoBcast : MainState :=
  (runTicks (initMainState 0) [⟨[], [], 101⟩]).getD (initMainState 0)

/-- Spec scenario, second phase: a broadcast with frame 50 arrives. -/
def scenBcast50 : MainState :=
  (loopTick scenNoBcast ⟨[], [.broadcast 50 [⟨0, []⟩]], 101⟩).getD
    (initMainState 0)

/-- A run in which broadcast frames regress (50 then 10) after the local
step has reached 100. -/
def regressTicks : List TickInput :=
  [⟨[], [], 101⟩,
   ⟨[], [.broadcast 50 [⟨0, []⟩]], 101⟩,
   ⟨[], [.broadcast 10 [⟨0, []⟩]], 101⟩]

/-- Final state of the regressing-broadcast run. -/
def regressState : MainState :=
  (runTicks (initMainState 0) regressTicks).getD (initMainState 0)

/-- Two main-loop iterations with the wall clock at frame 100 throughout. -/
def clock100State : MainState :=
  (runTicks (initMainState 0) [⟨[], [], 100⟩, ⟨[], [], 100⟩]).getD
    (initMainState 0)

/-- State after the first of the two clock-at-100 iterations. -/
def clock100MidState : MainState :=
  (runTicks (initMainState 0) [⟨[], [], 100⟩]).getD (initMainState 0)

/-- A run whose clock reaches frame 17 and then frame 47. -/
def sendsRunState : MainState :=
  (runTicks (initMainState 0) [⟨[], [], 17⟩, ⟨[], [], 47⟩]).getD
    (initMainState 0)

/-- A short sorted-broadcast run: clock to 40, then a broadcast of frame 5
followed by one of frame 7. -/
def sortedRunTicks : List TickInput :=
  [⟨[], [], 40⟩,
   ⟨[], [.broadcast 5 [⟨0, []⟩], .broadcast 7 [⟨0, []⟩]], 40⟩]

/-- Final state of the sorted-broadcast run. -/
def sortedRunState : MainState :=
  (runTicks (initMainState 0) sortedRunTicks).getD (initMainState 0)

/-- Session state at the start of `keep_receiving`: the shared flag is true
and the receiver thread is alive. -/
def initSession : SessionState := ⟨true, true, initRecvState⟩

/-- Receiver state after one read that delivered two complete `GameStart`
messages at once. -/
def twoMsgState : RecvState :=
  (processData initRecvState
    (gameStartBytes 1 2 3 ++ gameStartBytes 4 5 6)).getD initRecvState

/-! ## Basic lemmas about bytes and packing -/

theorem length_toBytesBE (w n : Nat) : (toBytesBE w n).length = w := by
  induction w generalizing n with
  | zero => rfl
  | succ w ih => simp [toBytesBE, ih]

theorem beVal_append (bs cs : List Nat) :
    beVal (bs ++ cs) = beVal bs * 256 ^ cs.length + beVal cs := by
  induction cs using List.reverseRecOn with
  | nil => simp [beVal]
  | append_singleton cs c ih =>
      simp only [beVal, List.foldl_append, List.foldl_cons, List.foldl_nil] at *
      rw [ih]
      simp only [List.length_append, List.length_singleton, pow_succ, pow_add,
        pow_one]
      ring

theorem beVal_toBytesBE (w n : Nat) (h : n < 256 ^ w) :
    beVal (toBytesBE w n) = n := by
  induction w generalizing n with
  | zero =>
      simp only [pow_zero, Nat.lt_one_iff] at h
      simp [toBytesBE, beVal, h]
  | succ w ih =>
      have hdiv : n / 256 < 256 ^ w := by
        rw [Nat.div_lt_iff_lt_mul (by norm_num)]
        calc n < 256 ^ (w + 1) := h
        _ = 256 ^ w * 256 := by rw [pow_succ]
      simp only [toBytesBE, beVal_append, ih (n / 256) hdiv]
      simp [beVal]
      omega

theorem toBytesBE_lt (w n : Nat) : ∀ b ∈ toBytesBE w n, b < 256 := by
  induction w generalizing n with
  | zero => simp [toBytesBE]
  | succ w ih =>
      simp only [toBytesBE, List.mem_append, List.mem_singleton]
      rintro b (hb | rfl)
      · exact ih _ b hb
      · exact Nat.mod_lt _ (by norm_num)

theorem keyValue_lt (k : Key) : k.value < 256 := by cases k <;> simp [Key.value]

theorem eventTypeValue_lt (t : EventType) : t.value < 256 := by
  cases t <;> simp [EventType.value]

theorem toBytesBE_one {n : Nat} (h : n < 256) : toBytesBE 1 n = [n] := by
  simp [toBytesBE, Nat.mod_eq_of_lt h, Nat.div_eq_of_lt h]

theorem beVal_singleton (n : Nat) : beVal [n] = n := by simp [beVal]

theorem takeExact?_append (xs ys : List Nat) :
    takeExact? xs.length (xs ++ ys) = some (xs, ys) := by
  simp [takeExact?, List.take_left, List.drop_left]

theorem eventBytes_length (e : Event) : (eventBytes e).length = 10 := by
  simp [eventBytes, length_toBytesBE]

/-! ## Structural lemmas about the main-loop phases -/

theorem listMax_append_singleton (l : List Nat) (x : Nat) :
    listMax (l ++ [x]) = max (listMax l) x := by
  induction l with
  | nil => simp [listMax]
  | cons y ys ih => simp [listMax, ih, Nat.max_assoc]

theorem handleInputs_proj (st : MainState) (keys : List (Key × EventType)) :
    (handleInputs st keys).simulation_step = st.simulation_step ∧
    (handleInputs st keys).other_client_frame = st.other_client_frame ∧
    (handleInputs st keys).remoteTargets = st.remoteTargets ∧
    (handleInputs st keys).remoteFrame = st.remoteFrame ∧
    (handleInputs st keys).localTargets = st.localTargets ∧
    (handleInputs st keys).sends = st.sends ∧
    (handleInputs st keys).client_id = st.client_id := by
  induction keys generalizing st with
  | nil => simp [handleInputs]
  | cons k ks ih =>
      simp only [handleInputs, List.foldl_cons] at *
      exact ih _

theorem localAdvance_proj (st : MainState) :
    (localAdvance st).simulation_step = st.simulation_step ∧
    (localAdvance st).other_client_frame = st.other_client_frame ∧
    (localAdvance st).remoteTargets = st.remoteTargets ∧
    (localAdvance st).remoteFrame = st.remoteFrame ∧
    (localAdvance st).event_buffer = st.event_buffer ∧
    (localAdvance st).sends = st.sends ∧
    (localAdvance st).client_id = st.client_id := by
  unfold localAdvance
  split <;> simp

theorem drainMsgs_proj {st st2 : MainState} {msgs : List PendingMessage}
    (h : drainMsgs st msgs = some st2) :
    st2.simulation_step = st.simulation_step ∧
    st2.remoteTargets = st.remoteTargets ∧
    st2.remoteFrame = st.remoteFrame ∧
    st2.localTargets = st.localTargets ∧
    st2.event_buffer = st.event_buffer ∧
    st2.sends = st.sends ∧
    st2.client_id = st.client_id := by
  induction msgs generalizing st with
  | nil =>
      simp only [drainMsgs, Option.some.injEq] at h
      subst h
      exact ⟨rfl, rfl, rfl, rfl, rfl, rfl, rfl⟩
  | cons m rest ih =>
      cases m with
      | gameStart a b c => simp [drainMsgs] at h
      | broadcast f cs =>
          simp only [drainMsgs, MODE, reduceCtorEq, if_neg, if_false] at h
          split at h
          · simpa using ih h
          · exact absurd h (by simp)

theorem drainMsgs_ocf {st st2 : MainState} {msgs : List PendingMessage}
    (h : drainMsgs st msgs = some st2) :
    st2.other_client_frame =
      (msgFrames msgs).foldl (fun _ f => some f) st.other_client_frame := by
  induction msgs generalizing st with
  | nil =>
      simp only [drainMsgs, Option.some.injEq] at h
      subst h
      rfl
  | cons m rest ih =>
      cases m with
      | gameStart a b c => simp [drainMsgs] at h
      | broadcast f cs =>
          simp only [drainMsgs, MODE, reduceCtorEq, if_neg, if_false] at h
          split at h
          · simpa [msgFrames] using ih h
          · exact absurd h (by simp)

theorem catchUpGo_closed (n : Nat) (st : MainState) :
    catchUpGo n st =
      { st with
        simulation_step := st.simulation_step + n
        sends := st.sends ++ flushes st.simulation_step n st.event_buffer
        event_buffer :=
          if flushes st.simulation_step n st.event_buffer = [] then
            st.event_buffer
          else [] } := by
  induction n generalizing st with
  | zero => simp [catchUpGo, flushes]
  | succ n ih =>
      show catchUpGo n (catchUpStep st) = _
      rw [ih]
      by_cases h : st.simulation_step % 15 = 0 <;>
        simp [catchUpStep, flushes, h, List.append_assoc] <;>
        omega

theorem catchUp_proj (st : MainState) (nf : Nat) :
    (catchUp st nf).simulation_step = max st.simulation_step (nf - 1) ∧
    (catchUp st nf).other_client_frame = st.other_client_frame ∧
    (catchUp st nf).remoteTargets = st.remoteTargets ∧
    (catchUp st nf).remoteFrame = st.remoteFrame ∧
    (catchUp st nf).localTargets = st.localTargets ∧
    (catchUp st nf).client_id = st.client_id := by
  unfold catchUp
  rw [catchUpGo_closed]
  refine ⟨?_, rfl, rfl, rfl, rfl, rfl⟩
  simp
  omega

theorem flushes_map_fst (n : Nat) :
    ∀ (s : Nat) (buf : List Event),
      (flushes s n buf).map Prod.fst =
        (List.range' s n).filter (fun x => x % 15 == 0) := by
  induction n with
  | zero => intro s buf; simp [flushes]
  | succ n ih =>
      intro s buf
      rw [List.range'_succ]
      by_cases h : s % 15 = 0 <;>
        simp [flushes, h, List.filter_cons, ih]

theorem flushes_nilbuf (n : Nat) :
    ∀ (s : Nat) (p : Nat × List Event),
      p ∈ flushes s n ([] : List Event) → p.2 = [] := by
  induction n with
  | zero => intro s p hp; simp [flushes] at hp
  | succ n ih =>
      intro s p hp
      by_cases h : s % 15 = 0
      · simp only [flushes, if_pos h, List.mem_cons] at hp
        rcases hp with rfl | hp
        · rfl
        · exact ih _ _ hp
      · simp only [flushes, if_neg h] at hp
        exact ih _ _ hp

theorem flushes_tail (n : Nat) :
    ∀ (s : Nat) (buf : List Event) (p : Nat × List Event),
      p ∈ (flushes s n buf).tail → p.2 = [] := by
  induction n with
  | zero => intro s buf p hp; simp [flushes] at hp
  | succ n ih =>
      intro s buf p hp
      by_cases h : s % 15 = 0
      · simp only [flushes, if_pos h, List.tail_cons] at hp
        exact flushes_nilbuf _ _ _ hp
      · simp only [flushes, if_neg h] at hp
        exact ih _ _ _ hp

theorem range_append_range' (a b : Nat) :
    List.range (a + b) = List.range a ++ List.range' a b := by
  rw [List.range_eq_range', List.range_eq_range']
  have h := List.range'_append 0 a b 1
  simp only [Nat.zero_add, Nat.one_mul] at h
  rw [Nat.add_comm a b]
  exact h.symm

theorem foldlLast_mem (fs : List Nat) :
    ∀ d : Option Nat,
      fs.foldl (fun _ f => some f) d = d ∨
      ∃ f ∈ fs, fs.foldl (fun _ f => some f) d = some f := by
  induction fs with
  | nil => intro d; exact Or.inl rfl
  | cons g gs ih =>
      intro d
      rcases ih (some g) with h | ⟨f, hf, h⟩
      · exact Or.inr ⟨g, by simp, by simpa using h⟩
      · exact Or.inr ⟨f, by simp [hf], by simpa using h⟩

theorem remoteAdvance_proj (st : MainState) :
    (remoteAdvance st).simulation_step = st.simulation_step ∧
    (remoteAdvance st).other_client_frame = st.other_client_frame ∧
    (remoteAdvance st).localTargets = st.localTargets ∧
    (remoteAdvance st).event_buffer = st.event_buffer ∧
    (remoteAdvance st).sends = st.sends ∧
    (remoteAdvance st).client_id = st.client_id := by
  unfold remoteAdvance advanceRemote
  split
  · split <;> simp
  · simp

theorem listMax_le {l : List Nat} {b : Nat} (h : ∀ t ∈ l, t ≤ b) :
    listMax l ≤ b := by
  induction l with
  | nil => exact Nat.zero_le b
  | cons x xs ih =>
      simp only [listMax, Nat.max_le]
      exact ⟨h x (by simp), ih fun t ht => h t (by simp [ht])⟩

/-! ## Preservation of the synchronization invariant -/

theorem mainInv_congr {a b : MainState}
    (h1 : b.remoteTargets = a.remoteTargets)
    (h2 : b.other_client_frame = a.other_client_frame)
    (h3 : b.simulation_step = a.simulation_step)
    (h4 : b.remoteFrame = a.remoteFrame) :
    MainInv a → MainInv b := by
  unfold MainInv
  rw [h1, h2, h3, h4]
  exact id

theorem mainInv_init (cid : Nat) : MainInv (initMainState cid) := by
  refine ⟨List.sorted_nil, ?_, rfl⟩
  intro t ht
  simp [initMainState] at ht

theorem drainMsgs_inv {st st2 : MainState} {msgs : List PendingMessage}
    (hinv : MainInv st) (hle : OcfLe st (msgFrames msgs))
    (hsort : List.Sorted (· ≤ ·) (msgFrames msgs))
    (h : drainMsgs st msgs = some st2) : MainInv st2 := by
  induction msgs generalizing st with
  | nil =>
      simp only [drainMsgs, Option.some.injEq] at h
      subst h
      exact hinv
  | cons m rest ih =>
      cases m with
      | gameStart a b c => simp [drainMsgs] at h
      | broadcast f cs =>
          simp only [drainMsgs, MODE, reduceCtorEq, if_neg, if_false] at h
          split at h
          · have hmem : f ∈ msgFrames (.broadcast f cs :: rest) := by
              simp [msgFrames]
            have hsort2 : List.Sorted (· ≤ ·) (msgFrames rest) := by
              simpa [msgFrames] using hsort.of_cons
            have hcross : ∀ g ∈ msgFrames rest, f ≤ g := by
              intro g hg
              have := List.rel_of_sorted_cons (by simpa [msgFrames] using hsort)
              exact this g hg
            refine ih ?_ ?_ hsort2 h
            · obtain ⟨hs1, hs2, hs3⟩ := hinv
              refine ⟨hs1, ?_, hs3⟩
              intro t ht
              obtain ⟨f0, hf0, htle⟩ := hs2 t ht
              refine ⟨f, rfl, le_trans htle (min_le_min le_rfl ?_)⟩
              exact hle f0 hf0 f hmem
            · intro g hg g2 hg2
              simp only [Option.some.injEq] at hg
              subst hg
              exact hcross g2 hg2
          · exact absurd h (by simp)

theorem remoteAdvance_inv {st : MainState} (hinv : MainInv st) :
    MainInv (remoteAdvance st) := by
  unfold remoteAdvance
  split
  · rename_i hstep
    cases hocf : st.other_client_frame with
    | none => exact hinv
    | some f =>
        obtain ⟨hs1, hs2, hs3⟩ := hinv
        unfold advanceRemote
        refine ⟨?_, ?_, ?_⟩
        · refine List.pairwise_append.mpr ⟨hs1, List.pairwise_singleton _ _, ?_⟩
          intro t ht u hu
          simp only [List.mem_singleton] at hu
          subst hu
          obtain ⟨f0, hf0, htle⟩ := hs2 t ht
          rw [hocf] at hf0
          simp only [Option.some.injEq] at hf0
          subst hf0
          exact htle
        · intro t ht
          simp only [List.mem_append, List.mem_singleton] at ht
          rcases ht with ht | rfl
          · exact hs2 t ht
          · exact ⟨f, hocf, le_refl _⟩
        · simp only [listMax_append_singleton, hs3]
  · exact hinv

theorem catchUp_inv {st : MainState} (hinv : MainInv st) (nf : Nat) :
    MainInv (catchUp st nf) := by
  obtain ⟨hp1, hp2, hp3, hp4, _, _⟩ := catchUp_proj st nf
  obtain ⟨hs1, hs2, hs3⟩ := hinv
  refine ⟨by rw [hp3]; exact hs1, ?_, by rw [hp4, hp3]; exact hs3⟩
  intro t ht
  rw [hp3] at ht
  obtain ⟨f, hf, htle⟩ := hs2 t ht
  refine ⟨f, by rw [hp2]; exact hf, le_trans htle (min_le_min ?_ le_rfl)⟩
  rw [hp1]
  exact Nat.sub_le_sub_right (le_max_left _ _) 30

theorem loopTick_inv {st st2 : MainState} {inp : TickInput}
    (hinv : MainInv st) (hle : OcfLe st (msgFrames inp.msgs))
    (hsort : List.Sorted (· ≤ ·) (msgFrames inp.msgs))
    (ht : loopTick st inp = some st2) :
    MainInv st2 ∧
    (st2.other_client_frame = st.other_client_frame ∨
      ∃ f ∈ msgFrames inp.msgs, st2.other_client_frame = some f) := by
  unfold loopTick at ht
  rw [Option.map_eq_some'] at ht
  obtain ⟨stD, hD, rfl⟩ := ht
  obtain ⟨hh1, hh2, hh3, hh4, _, _, _⟩ :=
    handleInputs_proj st inp.keys
  obtain ⟨hl1, hl2, hl3, hl4, _, _, _⟩ :=
    localAdvance_proj (handleInputs st inp.keys)
  have hinv1 : MainInv (localAdvance (handleInputs st inp.keys)) :=
    mainInv_congr (by rw [hl3, hh3]) (by rw [hl2, hh2])
      (by rw [hl1, hh1]) (by rw [hl4, hh4]) hinv
  have hle1 : OcfLe (localAdvance (handleInputs st inp.keys))
      (msgFrames inp.msgs) := by
    intro f hf g hg
    rw [hl2, hh2] at hf
    exact hle f hf g hg
  have hinvD : MainInv stD := drainMsgs_inv hinv1 hle1 hsort hD
  have hocfD :=
    drainMsgs_ocf hD
  rw [hl2, hh2] at hocfD
  obtain ⟨hr1, hr2, _, _, _, _⟩ := remoteAdvance_proj stD
  obtain ⟨hc1, hc2, _, _, _, _⟩ := catchUp_proj (remoteAdvance stD) inp.new_frame
  constructor
  · exact catchUp_inv (remoteAdvance_inv hinvD) inp.new_frame
  · rw [hc2, hr2, hocfD]
    rcases foldlLast_mem (msgFrames inp.msgs) st.other_client_frame with
      h | ⟨f, hf, h⟩
    · exact Or.inl h
    · exact Or.inr ⟨f, hf, h⟩

theorem runTicks_inv {ticks : List TickInput} {st st2 : MainState}
    (hinv : MainInv st) (hle : OcfLe st (broadcastFrames ticks))
    (hsort : List.Sorted (· ≤ ·) (broadcastFrames ticks))
    (ht : runTicks st ticks = some st2) : MainInv st2 := by
  induction ticks generalizing st with
  | nil =>
      simp only [runTicks, Option.some.injEq] at ht
      subst ht
      exact hinv
  | cons inp rest ih =>
      simp only [runTicks, Option.bind_eq_bind, Option.bind_eq_some] at ht
      obtain ⟨stM, hM, hrest⟩ := ht
      simp only [broadcastFrames] at hle hsort
      obtain ⟨hsort1, hsort2, hcross⟩ := List.pairwise_append.mp hsort
      have hle1 : OcfLe st (msgFrames inp.msgs) := by
        intro f hf g hg
        exact hle f hf g (by simp [hg])
      obtain ⟨hinvM, hocfM⟩ := loopTick_inv hinv hle1 hsort1 hM
      refine ih hinvM ?_ hsort2 hrest
      intro f hf g hg
      rcases hocfM with h | ⟨f0, hf0, h⟩
      · rw [h] at hf
        exact hle f hf g (by simp [hg])
      · rw [h] at hf
        simp only [Option.some.injEq] at hf
        subst hf
        exact hcross f0 hf0 g hg

/-! ## Further helper lemmas for the individual claims -/

theorem packEvents?_eq {events : List Event}
    (h : ∀ e ∈ events, e.frame < 256 ^ 8) :
    packEvents? events = some (events.map eventBytes).flatten := by
  induction events with
  | nil => simp [packEvents?]
  | cons e es ih =>
      have hk := keyValue_lt e.key
      have ht := eventTypeValue_lt e.type
      have hf := h e (by simp)
      have hes : ∀ x ∈ es, x.frame < 256 ^ 8 := fun x hx => h x (by simp [hx])
      simp only [packEvents?, packEvent?, packUInt?, ih hes]
      rw [if_pos (by simpa using hk), if_pos (by simpa using ht), if_pos hf]
      simp [eventBytes, toBytesBE_one hk, toBytesBE_one ht]

theorem drainMsgs_none_of_mem {msgs : List PendingMessage} {f : Nat}
    (h : PendingMessage.broadcast f [] ∈ msgs) :
    ∀ st : MainState, drainMsgs st msgs = none := by
  induction msgs with
  | nil => cases h
  | cons m rest ih =>
      intro st
      rcases List.mem_cons.mp h with rfl | hmem
      · simp [drainMsgs]
      · cases m with
        | gameStart a b c => simp [drainMsgs]
        | broadcast f2 cs =>
            by_cases hcs : 1 ≤ cs.length
            · simp [drainMsgs, hcs, MODE, ih hmem]
            · simp [drainMsgs, hcs]

theorem drainMsgs_isSome_of_good {msgs : List PendingMessage}
    (h : ∀ m ∈ msgs, ∃ f cs, m = PendingMessage.broadcast f cs ∧ cs ≠ []) :
    ∀ st : MainState, (drainMsgs st msgs).isSome := by
  induction msgs with
  | nil => intro st; simp [drainMsgs]
  | cons m rest ih =>
      intro st
      obtain ⟨f, cs, rfl, hne⟩ := h m (by simp)
      have hcs : 1 ≤ cs.length := by
        cases cs with
        | nil => exact absurd rfl hne
        | cons a l => simp
      have hrest : ∀ m ∈ rest, ∃ f cs, m = PendingMessage.broadcast f cs ∧ cs ≠ [] :=
        fun m hm => h m (by simp [hm])
      simp [drainMsgs, hcs, MODE, ih hrest]

theorem handleInputs_buffer (st : MainState) (keys : List (Key × EventType)) :
    ∃ newEvents, (handleInputs st keys).event_buffer =
      st.event_buffer ++ newEvents := by
  induction keys generalizing st with
  | nil => exact ⟨[], by simp [handleInputs]⟩
  | cons k ks ih =>
      simp only [handleInputs, List.foldl_cons] at *
      obtain ⟨l, hl⟩ := ih
        { st with
          localEnqueued := st.localEnqueued ++ [⟨k.1, k.2, st.simulation_step⟩]
          event_buffer := st.event_buffer ++ [⟨k.1, k.2, st.simulation_step⟩] }
      exact ⟨⟨k.1, k.2, st.simulation_step⟩ :: l, by simpa using hl⟩

theorem loopTick_sends {st st2 : MainState} {inp : TickInput}
    (ht : loopTick st inp = some st2) :
    ∃ buf,
      st2.sends = st.sends ++
        flushes st.simulation_step
          ((inp.new_frame - 1) - st.simulation_step) buf ∧
      st2.event_buffer =
        (if flushes st.simulation_step
            ((inp.new_frame - 1) - st.simulation_step) buf = [] then buf
         else []) ∧
      st2.simulation_step =
        st.simulation_step + ((inp.new_frame - 1) - st.simulation_step) := by
  unfold loopTick at ht
  rw [Option.map_eq_some'] at ht
  obtain ⟨stD, hD, rfl⟩ := ht
  obtain ⟨hh1, _, _, _, _, hh6, _⟩ := handleInputs_proj st inp.keys
  obtain ⟨hl1, _, _, _, hl5, hl6, _⟩ :=
    localAdvance_proj (handleInputs st inp.keys)
  obtain ⟨hd1, _, _, _, hd5, hd6, _⟩ := drainMsgs_proj hD
  obtain ⟨hr1, _, _, hr4, hr5, _⟩ := remoteAdvance_proj stD
  have hstep : (remoteAdvance stD).simulation_step = st.simulation_step := by
    rw [hr1, hd1, hl1, hh1]
  have hsends : (remoteAdvance stD).sends = st.sends := by
    rw [hr5, hd6, hl6, hh6]
  have hbuf : (remoteAdvance stD).event_buffer =
      (handleInputs st inp.keys).event_buffer := by
    rw [hr4, hd5, hl5]
  refine ⟨(handleInputs st inp.keys).event_buffer, ?_, ?_, ?_⟩ <;>
    · unfold catchUp
      rw [catchUpGo_closed]
      simp [hstep, hsends, hbuf]

theorem loopTick_ocf_step {st st2 : MainState} {inp : TickInput}
    (ht : loopTick st inp = some st2) :
    st2.other_client_frame =
      (msgFrames inp.msgs).foldl (fun _ f => some f) st.other_client_frame ∧
    st2.simulation_step = max st.simulation_step (inp.new_frame - 1) := by
  unfold loopTick at ht
  rw [Option.map_eq_some'] at ht
  obtain ⟨stD, hD, rfl⟩ := ht
  obtain ⟨hh1, hh2, _, _, _, _, _⟩ := handleInputs_proj st inp.keys
  obtain ⟨hl1, hl2, _, _, _, _, _⟩ :=
    localAdvance_proj (handleInputs st inp.keys)
  obtain ⟨hd1, _, _, _, _, _, _⟩ := drainMsgs_proj hD
  have hocfD := drainMsgs_ocf hD
  obtain ⟨hr1, hr2, _, _, _, _⟩ := remoteAdvance_proj stD
  obtain ⟨hc1, hc2, _, _, _, _⟩ := catchUp_proj (remoteAdvance stD) inp.new_frame
  constructor
  · rw [hc2, hr2, hocfD, hl2, hh2]
  · rw [hc1, hr1, hd1, hl1, hh1]

theorem dispatchStage_queue {queue : List PendingMessage} {buffer1 : List Nat}
    {header1 : Option MessageHeader} {st2 : RecvState}
    (h : dispatchStage queue buffer1 header1 = some st2) :
    st2.queue = queue ∨ ∃ m, st2.queue = queue ++ [m] := by
  unfold dispatchStage at h
  repeat' split at h
  all_goals first
    | (simp only [Option.some.injEq] at h; subst h; exact Or.inl rfl)
    | (simp only [Option.some.injEq] at h; subst h; exact Or.inr ⟨_, rfl⟩)
    | simp only [reduceCtorEq] at h

theorem processData_queue {st : RecvState} {data : List Nat} {st2 : RecvState}
    (h : processData st data = some st2) :
    st2.queue = st.queue ∨ ∃ m, st2.queue = st.queue ++ [m] := by
  unfold processData at h
  split at h
  · exact absurd h (by simp)
  · exact dispatchStage_queue h

theorem processData_gameStart (st : RecvState) (data extra : List Nat)
    (c s r : Nat) (hs : s < 256 ^ 8) (hr : r < 256 ^ 8)
    (hhdr : st.current_header = none)
    (hcat : st.buffer ++ data = gameStartBytes c s r ++ extra) :
    processData st data =
      some ⟨extra, none, st.queue ++ [.gameStart c s r]⟩ := by
  have hshape : gameStartBytes c s r ++ extra =
      2 :: 0 :: 17 ::
        ([c] ++ (toBytesBE 8 s ++ (toBytesBE 8 r ++ extra))) := by
    simp [gameStartBytes]
  unfold processData
  rw [hcat, hhdr, hshape]
  unfold parseHeaderStage
  simp only [MessageType.fromNat?]
  unfold dispatchStage
  have hlen : (17 : Nat) ≤
      ([c] ++ (toBytesBE 8 s ++ (toBytesBE 8 r ++ extra))).length := by
    simp only [List.length_append, List.length_cons, List.length_nil,
      length_toBytesBE]
    omega
  have ht1 : takeExact? 1 ([c] ++ (toBytesBE 8 s ++ (toBytesBE 8 r ++ extra)))
      = some ([c], toBytesBE 8 s ++ (toBytesBE 8 r ++ extra)) := by
    have := takeExact?_append [c] (toBytesBE 8 s ++ (toBytesBE 8 r ++ extra))
    simpa using this
  have ht2 : takeExact? 8 (toBytesBE 8 s ++ (toBytesBE 8 r ++ extra))
      = some (toBytesBE 8 s, toBytesBE 8 r ++ extra) := by
    have := takeExact?_append (toBytesBE 8 s) (toBytesBE 8 r ++ extra)
    rwa [length_toBytesBE] at this
  have ht3 : takeExact? 8 (toBytesBE 8 r ++ extra)
      = some (toBytesBE 8 r, extra) := by
    have := takeExact?_append (toBytesBE 8 r) extra
    rwa [length_toBytesBE] at this
  simp only [show (256 * 0 + 17 : Nat) = 17 by norm_num, if_pos hlen,
    ht1, ht2, ht3, beVal_singleton, beVal_toBytesBE 8 s hs,
    beVal_toBytesBE 8 r hr]

theorem remoteAdvance_targets_pos {st : MainState} {f : Nat}
    (hstep : 30 < st.simulation_step)
    (hocf : st.other_client_frame = some f) :
    (remoteAdvance st).remoteTargets =
      st.remoteTargets ++ [min (st.simulation_step - 30) f] := by
  unfold remoteAdvance
  rw [if_pos hstep, hocf]
  rfl

theorem remoteAdvance_targets_id {st : MainState}
    (h : st.simulation_step ≤ 30 ∨ st.other_client_frame = none) :
    (remoteAdvance st).remoteTargets = st.remoteTargets := by
  unfold remoteAdvance
  rcases h with h | h
  · rw [if_neg (by omega)]
  · split
    · rw [h]
    · rfl

theorem remoteAdvance_ocf_none {st : MainState}
    (h : st.other_client_frame = none) : remoteAdvance st = st := by
  unfold remoteAdvance
  split
  · rw [h]
  · rfl

theorem loopTick_no_msgs {st st2 : MainState} {inp : TickInput}
    (hmsgs : inp.msgs = []) (hocf : st.other_client_frame = none)
    (ht : loopTick st inp = some st2) :
    st2.other_client_frame = none ∧
    st2.remoteTargets = st.remoteTargets ∧
    st2.remoteFrame = st.remoteFrame := by
  unfold loopTick at ht
  rw [Option.map_eq_some'] at ht
  obtain ⟨stD, hD, rfl⟩ := ht
  rw [hmsgs] at hD
  simp only [drainMsgs, Option.some.injEq] at hD
  subst hD
  obtain ⟨hh1, hh2, hh3, hh4, _, _, _⟩ := handleInputs_proj st inp.keys
  obtain ⟨hl1, hl2, hl3, hl4, _, _, _⟩ :=
    localAdvance_proj (handleInputs st inp.keys)
  have hocf1 : (localAdvance (handleInputs st inp.keys)).other_client_frame
      = none := by rw [hl2, hh2, hocf]
  rw [remoteAdvance_ocf_none hocf1]
  obtain ⟨hc1, hc2, hc3, hc4, _, _⟩ :=
    catchUp_proj (localAdvance (handleInputs st inp.keys)) inp.new_frame
  exact ⟨by rw [hc2, hocf1], by rw [hc3, hl3, hh3], by rw [hc4, hl4, hh4]⟩

theorem runTicks_no_broadcasts {ticks : List TickInput} {st st2 : MainState}
    (hmsgs : ∀ i ∈ ticks, i.msgs = [])
    (hocf : st.other_client_frame = none)
    (hrun : runTicks st ticks = some st2) :
    st2.other_client_frame = none ∧
    st2.remoteTargets = st.remoteTargets ∧
    st2.remoteFrame = st.remoteFrame := by
  induction ticks generalizing st with
  | nil =>
      simp only [runTicks, Option.some.injEq] at hrun
      subst hrun
      exact ⟨hocf, rfl, rfl⟩
  | cons inp rest ih =>
      simp only [runTicks, Option.bind_eq_bind, Option.bind_eq_some] at hrun
      obtain ⟨stM, hM, hrest⟩ := hrun
      obtain ⟨hM1, hM2, hM3⟩ := loopTick_no_msgs (hmsgs inp (by simp)) hocf hM
      obtain ⟨h1, h2, h3⟩ := ih (fun i hi => hmsgs i (by simp [hi])) hM1 hrest
      exact ⟨h1, by rw [h2, hM2], by rw [h3, hM3]⟩

theorem loopTick_sends_fst {st st2 : MainState} {inp : TickInput}
    (ht : loopTick st inp = some st2)
    (hinv : st.sends.map Prod.fst =
      (List.range st.simulation_step).filter (fun s => s % 15 == 0)) :
    st2.sends.map Prod.fst =
      (List.range st2.simulation_step).filter (fun s => s % 15 == 0) := by
  obtain ⟨buf, hsends, _, hstep⟩ := loopTick_sends ht
  rw [hsends, hstep, List.map_append, hinv, flushes_map_fst,
    range_append_range', List.filter_append]

theorem runTicks_sends_fst {ticks : List TickInput} {st st2 : MainState}
    (hrun : runTicks st ticks = some st2)
    (hinv : st.sends.map Prod.fst =
      (List.range st.simulation_step).filter (fun s => s % 15 == 0)) :
    st2.sends.map Prod.fst =
      (List.range st2.simulation_step).filter (fun s => s % 15 == 0) := by
  induction ticks generalizing st with
  | nil =>
      simp only [runTicks, Option.some.injEq] at hrun
      subst hrun
      exact hinv
  | cons inp rest ih =>
      simp only [runTicks, Option.bind_eq_bind, Option.bind_eq_some] at hrun
      obtain ⟨stM, hM, hrest⟩ := hrun
      exact ih hrest (loopTick_sends_fst hM hinv)

theorem drop_append_succ {A : Type} (xs ys : List A) :
    (xs ++ ys).drop (xs.length + 1) = ys.tail := by
  induction xs with
  | nil => simp [List.drop_one]
  | cons a as ih => simp [ih]

theorem flatten_eventBytes_length (events : List Event) :
    ((events.map eventBytes).flatten).length = 10 * events.length := by
  induction events with
  | nil => simp
  | cons e es ih =>
      simp only [List.map_cons, List.flatten_cons, List.length_append,
        eventBytes_length, ih, List.length_cons]
      ring

/-! ## The claims -/

/-- C10: for every `ObpfLineClearDelayState` value,
`LineClearDelayState.from_obpf` returns a snapshot whose `lines` list has
length exactly `min(count, 4)`, containing, in order, the fields `first`,
`second`, `third`, `fourth` up to that length, and whose `countdown` and
`delay` fields equal the corresponding input fields unchanged. -/
theorem c10_from_obpf_lines (o : ObpfLineClearDelayState) :
    (LineClearDelayState.from_obpf o).lines =
      [o.first, o.second, o.third, o.fourth].take (min o.count 4) ∧
    (LineClearDelayState.from_obpf o).lines.length = min o.count 4 ∧
    (LineClearDelayState.from_obpf o).countdown = o.countdown ∧
    (LineClearDelayState.from_obpf o).delay = o.delay := by
  obtain ⟨c, f1, f2, f3, f4, cd, d⟩ := o
  rcases c with _ | _ | _ | _ | c
  · simp [LineClearDelayState.from_obpf]
  · simp [LineClearDelayState.from_obpf]
  · simp [LineClearDelayState.from_obpf]
  · simp [LineClearDelayState.from_obpf]
  · simp [LineClearDelayState.from_obpf,
      show c + 4 > 0 by omega, show c + 4 > 1 by omega,
      show c + 4 > 2 by omega, show c + 4 > 3 by omega,
      show min (c + 4) 4 = 4 by omega]

/-- C7: for every list of events and every frame value (within the ranges
the Python `struct.pack` accepts), the outbound input message built by
`send_event_buffer` begins with a 1-byte type tag equal to 0 and a 2-byte
big-endian payload length, followed by exactly that many payload bytes
shaped as `frame:u64` then `event_count:u8` then 10 bytes per event
(`key:u8, type:u8, frame:u64`), where the declared payload length equals
`9 + 10 * event_count` and `event_count` equals the literal number of
events in the buffer. -/
theorem c7_send_event_buffer_format (events : List Event) (frame : Nat)
    (hframe : frame < 256 ^ 8) (hcount : events.length ≤ 255)
    (hev : ∀ e ∈ events, e.frame < 256 ^ 8) :
    send_event_buffer events frame =
      some ([0] ++ toBytesBE 2 (9 + 10 * events.length) ++
        (toBytesBE 8 frame ++ [events.length] ++
          (events.map eventBytes).flatten)) ∧
    beVal (toBytesBE 2 (9 + 10 * events.length)) = 9 + 10 * events.length ∧
    (toBytesBE 8 frame ++ [events.length] ++
        (events.map eventBytes).flatten).length = 9 + 10 * events.length ∧
    ∀ e ∈ events, (eventBytes e).length = 10 := by
  have hsize : 9 + 10 * events.length < 256 ^ 2 := by
    have : (256 : Nat) ^ 2 = 65536 := by norm_num
    omega
  have hc : events.length < 256 ^ 1 := by
    have : (256 : Nat) ^ 1 = 256 := by norm_num
    omega
  refine ⟨?_, beVal_toBytesBE 2 _ hsize, ?_, fun e _ => eventBytes_length e⟩
  · simp only [send_event_buffer, packUInt?, packEvents?_eq hev,
      if_pos (show (0 : Nat) < 256 ^ 1 by norm_num), if_pos hsize,
      if_pos hframe, if_pos hc, Option.bind_eq_bind, Option.some_bind,
      Option.some.injEq]
    rw [toBytesBE_one (by norm_num), toBytesBE_one (by omega)]
    simp [List.append_assoc]
  · simp only [List.length_append, length_toBytesBE, List.length_cons,
      List.length_nil, flatten_eventBytes_length]

/-- Witness for C7 at one concrete event and frame. -/
theorem c7_witness :
    send_event_buffer [⟨Key.LEFT, EventType.PRESSED, 3⟩] 7 =
      some ([0] ++ toBytesBE 2 19 ++ (toBytesBE 8 7 ++ [1] ++
        ([(⟨Key.LEFT, EventType.PRESSED, 3⟩ : Event)].map
          eventBytes).flatten)) :=
  (c7_send_event_buffer_format [⟨Key.LEFT, EventType.PRESSED, 3⟩] 7
    (by norm_num) (by norm_num) (by
      intro e he
      simp only [List.mem_singleton] at he
      subst he
      norm_num)).1

/-- C9: a `Broadcast` consumed by the main loop whose per-client event list
is empty fails the assertion at line 447 and aborts the session; when every
queued message is a `Broadcast` with at least one client's events, the
assertions pass and the iteration completes normally. -/
theorem c9_zero_client_broadcast (st : MainState) (inp : TickInput) :
    ((∃ f, PendingMessage.broadcast f [] ∈ inp.msgs) →
      loopTick st inp = none) ∧
    ((∀ m ∈ inp.msgs, ∃ f cs, m = PendingMessage.broadcast f cs ∧ cs ≠ []) →
      (loopTick st inp).isSome) := by
  constructor
  · rintro ⟨f, hf⟩
    unfold loopTick
    rw [drainMsgs_none_of_mem hf]
    rfl
  · intro h
    unfold loopTick
    have hs := drainMsgs_isSome_of_good h
      (localAdvance (handleInputs st inp.keys))
    obtain ⟨stD, hD⟩ := Option.isSome_iff_exists.mp hs
    rw [hD]
    rfl

/-- Witness for C9: a zero-client broadcast aborts, a one-client broadcast
does not. -/
theorem c9_witness :
    loopTick (initMainState 0) ⟨[], [.broadcast 5 []], 0⟩ = none ∧
    (loopTick (initMainState 0) ⟨[], [.broadcast 5 [⟨0, []⟩]], 0⟩).isSome :=
  ⟨(c9_zero_client_broadcast _ _).1 ⟨5, by simp⟩,
   (c9_zero_client_broadcast _ _).2 (by
      intro m hm
      simp only [List.mem_singleton] at hm
      subst hm
      exact ⟨5, [⟨0, []⟩], rfl, by simp⟩)⟩

/-- C1: in every main-loop iteration in which a broadcast has been received
(`other_client_frame` is not `None` after the drain) and the local
simulation step exceeds 30, the remote handle is advanced by exactly one
`simulate_up_until` call with target `min(simulation_step - 30,
other_client_last_known_frame)`; when no broadcast has ever been received
the remote handle is never advanced at all; in the spec scenario, the local
frame reaches 100 with no broadcast and the remote frontier stays 0, and a
`Broadcast` with frame 50 then yields `min(100 - 30, 50) = 50`. -/
theorem c1_remote_advance_policy :
    (∀ (st : MainState) (inp : TickInput) (st2 : MainState),
      loopTick st inp = some st2 →
      (∀ f, 30 < st.simulation_step → st2.other_client_frame = some f →
        st2.remoteTargets =
          st.remoteTargets ++ [min (st.simulation_step - 30) f]) ∧
      ((st.simulation_step ≤ 30 ∨ st2.other_client_frame = none) →
        st2.remoteTargets = st.remoteTargets)) ∧
    (∀ (ticks : List TickInput) (st2 : MainState),
      (∀ i ∈ ticks, i.msgs = []) →
      runTicks (initMainState 0) ticks = some st2 →
      st2.remoteTargets = [] ∧ st2.remoteFrame = 0) ∧
    (runTicks (initMainState 0) [⟨[], [], 101⟩] = some scenNoBcast ∧
      scenNoBcast.simulation_step = 100 ∧
      scenNoBcast.remoteTargets = [] ∧ scenNoBcast.remoteFrame = 0 ∧
      loopTick scenNoBcast ⟨[], [.broadcast 50 [⟨0, []⟩]], 101⟩ =
        some scenBcast50 ∧
      scenBcast50.remoteTargets = [min (100 - 30) 50] ∧
      min (100 - 30) 50 = 50 ∧ scenBcast50.remoteFrame = 50) := by
  refine ⟨?_, ?_, ?_⟩
  · intro st inp st2 ht
    unfold loopTick at ht
    rw [Option.map_eq_some'] at ht
    obtain ⟨stD, hD, rfl⟩ := ht
    obtain ⟨hh1, hh2, hh3, _, _, _, _⟩ := handleInputs_proj st inp.keys
    obtain ⟨hl1, hl2, hl3, _, _, _, _⟩ :=
      localAdvance_proj (handleInputs st inp.keys)
    obtain ⟨hd1, hd2, _, _, _, _, _⟩ := drainMsgs_proj hD
    have hDstep : stD.simulation_step = st.simulation_step := by
      rw [hd1, hl1, hh1]
    have hDrt : stD.remoteTargets = st.remoteTargets := by
      rw [hd2, hl3, hh3]
    obtain ⟨hr1, hr2, _, _, _, _⟩ := remoteAdvance_proj stD
    obtain ⟨hc1, hc2, hc3, _, _, _⟩ :=
      catchUp_proj (remoteAdvance stD) inp.new_frame
    constructor
    · intro f hstep hocf
      have hocfD : stD.other_client_frame = some f := by
        rw [← hr2, ← hc2]
        exact hocf
      rw [hc3, remoteAdvance_targets_pos (by rw [hDstep]; exact hstep) hocfD,
        hDrt, hDstep]
    · intro hcase
      rw [hc3, remoteAdvance_targets_id ?_, hDrt]
      rcases hcase with h | h
      · exact Or.inl (by rw [hDstep]; exact h)
      · refine Or.inr ?_
        rw [← hr2, ← hc2]
        exact h
  · intro ticks st2 hmsgs hrun
    obtain ⟨_, h2, h3⟩ := runTicks_no_broadcasts hmsgs rfl hrun
    exact ⟨h2, h3⟩
  · refine ⟨by decide, by decide, by decide, by decide, by decide,
      by decide, by decide, by decide⟩

/-- Witness for C1 at the spec-scenario states: the tick that first sees the
frame-50 broadcast advances the remote handle exactly to
`min(simulation_step - 30, 50)`. -/
theorem c1_witness :
    scenBcast50.remoteTargets =
      scenNoBcast.remoteTargets ++ [min (scenNoBcast.simulation_step - 30) 50] :=
  (c1_remote_advance_policy.1 scenNoBcast
    ⟨[], [.broadcast 50 [⟨0, []⟩]], 101⟩ scenBcast50 (by decide)).1
    50 (by decide) (by decide)

/-- C5 counterexample: with the wall clock at frame 100, the claim predicts
a local `simulate_up_until(99)`; the code sets `simulation_step` to
`new_frame - 1 = 99` at the end of the first iteration and then advances
the local handle to `simulation_step - 1 = 98` at the top of the next
iteration, so the only local advance target is 98, not `100 - 1`. -/
theorem c5_counterexample :
    runTicks (initMainState 0) [⟨[], [], 100⟩, ⟨[], [], 100⟩] =
      some clock100State ∧
    clock100State.localTargets = [98] ∧ (98 : Nat) ≠ 100 - 1 := by
  refine ⟨by decide, by decide, by decide⟩

/-- C5 amended: at the top of each iteration the local Simulation Handle is
advanced to exactly `simulation_step - 1` (nothing is advanced while the
step is 0), every local advance target is strictly below the simulation
step whose input events are being enqueued, and at the end of the iteration
`simulation_step` equals `max(old step, current_frame - 1)` — so relative
to the most recent frame-clock derivation the local handle is advanced to
`current_frame - 2`, never to the current frame itself. -/
theorem c5_amended_local_advance (st : MainState) (inp : TickInput)
    (st2 : MainState) (ht : loopTick st inp = some st2) :
    (0 < st.simulation_step →
      st2.localTargets = st.localTargets ++ [st.simulation_step - 1]) ∧
    (st.simulation_step = 0 → st2.localTargets = st.localTargets) ∧
    (∀ t ∈ st2.localTargets, t ∈ st.localTargets ∨ t < st.simulation_step) ∧
    st2.simulation_step = max st.simulation_step (inp.new_frame - 1) := by
  have hstep := (loopTick_ocf_step ht).2
  unfold loopTick at ht
  rw [Option.map_eq_some'] at ht
  obtain ⟨stD, hD, rfl⟩ := ht
  obtain ⟨hh1, _, _, _, hh5, _, _⟩ := handleInputs_proj st inp.keys
  obtain ⟨hd1, _, _, hd4, _, _, _⟩ := drainMsgs_proj hD
  obtain ⟨hr1, _, hr3, _, _, _⟩ := remoteAdvance_proj stD
  obtain ⟨hc1, _, _, _, hc5, _⟩ :=
    catchUp_proj (remoteAdvance stD) inp.new_frame
  have hlt : (catchUp (remoteAdvance stD) inp.new_frame).localTargets =
      (localAdvance (handleInputs st inp.keys)).localTargets := by
    rw [hc5, hr3, hd4]
  have hla : (localAdvance (handleInputs st inp.keys)).localTargets =
      if 0 < st.simulation_step then
        st.localTargets ++ [st.simulation_step - 1]
      else st.localTargets := by
    unfold localAdvance
    rw [hh1]
    split <;> simp [hh5]
  refine ⟨?_, ?_, ?_, hstep⟩
  · intro hpos
    rw [hlt, hla, if_pos hpos]
  · intro hzero
    rw [hlt, hla, if_neg (by omega)]
  · intro t htmem
    rw [hlt, hla] at htmem
    split at htmem
    · rcases List.mem_append.mp htmem with h | h
      · exact Or.inl h
      · simp only [List.mem_singleton] at h
        subst h
        exact Or.inr (by omega)
    · exact Or.inl htmem

/-- Witness for C5's amended statement at the two clock-at-100 iterations. -/
theorem c5_amended_witness :
    clock100MidState.simulation_step = 99 ∧
    clock100State.localTargets =
      clock100MidState.localTargets ++ [clock100MidState.simulation_step - 1] :=
  ⟨by decide,
   (c5_amended_local_advance clock100MidState ⟨[], [], 100⟩ clock100State
      (by decide)).1 (by decide)⟩

/-- C8: over every run of the main loop, the steps at which the outbound
event buffer is flushed through `send_event_buffer` are exactly the
simulation steps divisible by 15 that the step counter has passed through
(`[0, simulation_step)`), in order — a flush happens even when the buffer
is empty; and within one iteration every flush after the first sends an
empty buffer and any flush leaves the buffer cleared. -/
theorem c8_flush_schedule :
    (∀ (cid : Nat) (ticks : List TickInput) (st2 : MainState),
      runTicks (initMainState cid) ticks = some st2 →
      st2.sends.map Prod.fst =
        (List.range st2.simulation_step).filter (fun s => s % 15 == 0)) ∧
    (∀ (st : MainState) (inp : TickInput) (st2 : MainState),
      loopTick st inp = some st2 →
      (∀ p ∈ st2.sends.drop (st.sends.length + 1), p.2 = []) ∧
      (st.sends.length < st2.sends.length → st2.event_buffer = [])) := by
  constructor
  · intro cid ticks st2 hrun
    exact runTicks_sends_fst hrun (by simp [initMainState])
  · intro st inp st2 ht
    obtain ⟨buf, hsends, hbuf, _⟩ := loopTick_sends ht
    constructor
    · intro p hp
      rw [hsends, drop_append_succ] at hp
      exact flushes_tail _ _ _ _ hp
    · intro hlen
      rw [hbuf]
      split
      · rename_i hnil
        rw [hsends, hnil, List.append_nil] at hlen
        omega
      · rfl

/-- Witness for C8: a run whose clock reaches frame 17 and then 47 flushes
exactly at steps 0, 15, 30 and 45. -/
theorem c8_witness :
    runTicks (initMainState 0) [⟨[], [], 17⟩, ⟨[], [], 47⟩] =
      some sendsRunState ∧
    sendsRunState.sends.map Prod.fst =
      (List.range sendsRunState.simulation_step).filter
        (fun s => s % 15 == 0) :=
  ⟨by decide,
   c8_flush_schedule.1 0 [⟨[], [], 17⟩, ⟨[], [], 47⟩] sendsRunState
     (by decide)⟩

/-- C4 counterexample: a `ConnectionResetError` only `break`s out of the
receiver loop, and an unrecognized message type tag (tag 0, `HEARTBEAT`,
hits the `case _: raise` branch) only kills the receiver thread — in both
cases the shared running flag stays `true`, so the main loop is not
terminated, contradicting the claim that every fatal receiver error sets
the flag to false. -/
theorem c4_counterexample :
    (sessionRecvStep initSession SocketEvent.connReset).recvAlive = false ∧
    (sessionRecvStep initSession SocketEvent.connReset).running = true ∧
    (sessionRecvStep initSession (SocketEvent.recv [0, 0, 0])).recvAlive
      = false ∧
    (sessionRecvStep initSession (SocketEvent.recv [0, 0, 0])).running
      = true := by
  refine ⟨by decide, by decide, by decide, by decide⟩

/-- C4 amended: every fatal receiver error — a connection reset or aborted,
or a read whose decoding raises (including an unrecognized message type
tag) — terminates the receiver loop, but leaves the shared running flag
unchanged; the main loop's termination check is therefore unaffected. -/
theorem c4_amended_receiver_fatal (s : SessionState) (ev : SocketEvent)
    (halive : s.recvAlive = true)
    (hfatal : ev = SocketEvent.connAborted ∨ ev = SocketEvent.connReset ∨
      ∃ d, ev = SocketEvent.recv d ∧ processData s.recv d = none) :
    (sessionRecvStep s ev).recvAlive = false ∧
    (sessionRecvStep s ev).running = s.running := by
  rcases hfatal with rfl | rfl | ⟨d, rfl, hpd⟩
  · cases hr : s.running <;> simp [sessionRecvStep, halive, hr]
  · cases hr : s.running <;> simp [sessionRecvStep, halive, hr]
  · cases hr : s.running <;> simp [sessionRecvStep, halive, hr, hpd]

/-- Witness for C4's amended statement: a reset at session start ends the
receiver and leaves the flag as it was. -/
theorem c4_amended_witness :
    (sessionRecvStep initSession SocketEvent.connReset).recvAlive = false ∧
    (sessionRecvStep initSession SocketEvent.connReset).running =
      initSession.running :=
  c4_amended_receiver_fatal initSession SocketEvent.connReset rfl
    (Or.inr (Or.inl rfl))

/-- C3 counterexample: a single read delivering two complete framed
`GameStart` messages leaves the queue with only the first message decoded —
the second stays undecoded in the buffer until a further read — so the
claim that both are queued without requiring further socket reads fails. -/
theorem c3_counterexample :
    processData initRecvState
      (gameStartBytes 1 2 3 ++ gameStartBytes 4 5 6) = some twoMsgState ∧
    twoMsgState.queue = [PendingMessage.gameStart 1 2 3] ∧
    twoMsgState.buffer = gameStartBytes 4 5 6 := by
  refine ⟨by decide, by decide, by decide⟩

/-- C3 amended: each receiver read decodes and appends at most one message;
when one read delivers two complete framed messages, the first is decoded
and queued and the second remains buffered, and it is decoded and appended
in order by the next read iteration (even one delivering no new bytes), so
neither message is dropped. -/
theorem c3_amended_one_message_per_read :
    (∀ (st : RecvState) (data : List Nat) (st2 : RecvState),
      processData st data = some st2 →
      st2.queue = st.queue ∨ ∃ m, st2.queue = st.queue ++ [m]) ∧
    (∀ c1 s1 r1 c2 s2 r2 : Nat,
      s1 < 256 ^ 8 → r1 < 256 ^ 8 → s2 < 256 ^ 8 → r2 < 256 ^ 8 →
      processData initRecvState
          (gameStartBytes c1 s1 r1 ++ gameStartBytes c2 s2 r2) =
        some ⟨gameStartBytes c2 s2 r2, none,
          [PendingMessage.gameStart c1 s1 r1]⟩ ∧
      processData
          ⟨gameStartBytes c2 s2 r2, none,
            [PendingMessage.gameStart c1 s1 r1]⟩ [] =
        some ⟨[], none, [PendingMessage.gameStart c1 s1 r1,
          PendingMessage.gameStart c2 s2 r2]⟩) := by
  constructor
  · intro st data st2 h
    exact processData_queue h
  · intro c1 s1 r1 c2 s2 r2 hs1 hr1 hs2 hr2
    constructor
    · have h := processData_gameStart initRecvState
        (gameStartBytes c1 s1 r1 ++ gameStartBytes c2 s2 r2)
        (gameStartBytes c2 s2 r2) c1 s1 r1 hs1 hr1 rfl
        (by simp [initRecvState])
      simpa [initRecvState] using h
    · have h := processData_gameStart
        ⟨gameStartBytes c2 s2 r2, none,
          [PendingMessage.gameStart c1 s1 r1]⟩
        [] [] c2 s2 r2 hs2 hr2 rfl (by simp)
      simpa using h

/-- Witness for C3's amended statement at two concrete `GameStart`
messages. -/
theorem c3_amended_witness :
    processData initRecvState
      (gameStartBytes 1 2 3 ++ gameStartBytes 4 5 6) =
      some ⟨gameStartBytes 4 5 6, none, [PendingMessage.gameStart 1 2 3]⟩ :=
  (c3_amended_one_message_per_read.2 1 2 3 4 5 6 (by norm_num) (by norm_num)
    (by norm_num) (by norm_num)).1

/-- C6: over every run of the main loop whose received broadcast frames are
non-decreasing, the remote-handle advance targets (the confirmed frontier
samples) form a non-decreasing sequence, and every sampled target is at
most `min(simulation_step - 30, other_client_frame)` — the minimum of the
local frame minus the fixed delay and the latest confirmed remote frame. -/
theorem c6_frontier_monotone (cid : Nat) (ticks : List TickInput)
    (st2 : MainState)
    (hrun : runTicks (initMainState cid) ticks = some st2)
    (hsort : List.Sorted (· ≤ ·) (broadcastFrames ticks)) :
    List.Sorted (· ≤ ·) st2.remoteTargets ∧
    ∀ t ∈ st2.remoteTargets,
      ∃ f, st2.other_client_frame = some f ∧
        t ≤ min (st2.simulation_step - 30) f := by
  have h := runTicks_inv (mainInv_init cid)
    (fun f hf => by simp [initMainState] at hf) hsort hrun
  exact ⟨h.1, h.2.1⟩

/-- Witness for C6 at a short sorted-broadcast run. -/
theorem c6_witness :
    List.Sorted (· ≤ ·) sortedRunState.remoteTargets :=
  (c6_frontier_monotone 0 sortedRunTicks sortedRunState (by decide)
    (by decide)).1

/-- C2 counterexample: broadcasts may arrive with decreasing frames; after
broadcasts of frame 50 and then frame 10 with the local step at 100, the
remote handle's current frame is 50 while
`min(simulation_step - 30, latest broadcast frame) = min(70, 10) = 10`, so
the remote handle's current frame exceeds the claimed frontier at an
observation point. -/
theorem c2_counterexample :
    runTicks (initMainState 0) regressTicks = some regressState ∧
    regressState.simulation_step = 100 ∧
    regressState.other_client_frame = some 10 ∧
    regressState.remoteFrame = 50 ∧
    ¬(regressState.remoteFrame ≤
        min (regressState.simulation_step - 30) 10) := by
  refine ⟨by decide, by decide, by decide, by decide, by decide⟩

/-- C2 amended: in every run whose received broadcast frames are
non-decreasing, the remote handle's current frame (the running maximum of
the `simulate_up_until` targets) never exceeds
`min(simulation_step - 30, other_client_frame)` at any observation point,
and it is 0 while no broadcast has been received. -/
theorem c2_amended_no_overrun (cid : Nat) (ticks : List TickInput)
    (st2 : MainState)
    (hrun : runTicks (initMainState cid) ticks = some st2)
    (hsort : List.Sorted (· ≤ ·) (broadcastFrames ticks)) :
    (∀ f, st2.other_client_frame = some f →
      st2.remoteFrame ≤ min (st2.simulation_step - 30) f) ∧
    (st2.other_client_frame = none → st2.remoteFrame = 0) := by
  obtain ⟨hs1, hs2, hs3⟩ := runTicks_inv (mainInv_init cid)
    (fun f hf => by simp [initMainState] at hf) hsort hrun
  constructor
  · intro f hf
    rw [hs3]
    apply listMax_le
    intro t ht
    obtain ⟨f0, hf0, htle⟩ := hs2 t ht
    rw [hf] at hf0
    simp only [Option.some.injEq] at hf0
    subst hf0
    exact htle
  · intro hnone
    have hrt : st2.remoteTargets = [] := by
      cases hrt : st2.remoteTargets with
      | nil => rfl
      | cons a l =>
          obtain ⟨f0, hf0, _⟩ := hs2 a (by simp [hrt])
          rw [hnone] at hf0
          cases hf0
    rw [hs3, hrt]
    rfl

/-- Witness for C2's amended statement at the sorted-broadcast run. -/
theorem c2_amended_witness :
    sortedRunState.remoteFrame ≤
      min (sortedRunState.simulation_step - 30) 7 :=
  (c2_amended_no_overrun 0 sortedRunTicks sortedRunState (by decide)
    (by decide)).1 7 (by decide)

end ObpfClient
